import Mathlib

/-!
Verification of the leads-import repository's HTTP resilience layer
(`requestJSON` in src/http.mjs) and record repository
(`AirtableRepo` in src/airtableRepo.mjs) against its specification.

The JavaScript source is shallowly embedded: JS values flowing through the
code are modelled by the inductive type `Json`; the nondeterministic network
is modelled by explicitly passing the sequence of outcomes the server would
produce (one per issued request), and every function additionally returns
the observable trace it produces (number of calls, the structured requests
issued, the delays slept).  URL assembly and percent-encoding are not
modelled: a trace entry records the structured request (method, table,
filter formula before `encodeURIComponent`, body) instead of the final URL
string, since no specification sentence concerns the encoding itself.
-/

namespace LeadsImport

/-- A JavaScript value as it occurs in this program: the results of
`res.json()`, record field dictionaries, keys.  Numbers are modelled as
integers (the program never computes with fractional values). -/
inductive Json where
  | null
  | bool (b : Bool)
  | num (n : Int)
  | str (s : String)
  | arr (elems : List Json)
  | obj (fields : List (String × Json))

mutual

/-- JavaScript `String(v)` conversion, as used by template interpolation and
`map.set(String(val), ...)`.  `String` of an array joins the stringified
elements with commas; of a plain object it is `"[object Object]"`. -/
def jsString : Json → String
  | .null => "null"
  | .bool true => "true"
  | .bool false => "false"
  | .num n => toString n
  | .str s => s
  | .arr elems => jsStringList elems
  | .obj _ => "[object Object]"

/-- Comma-joined stringification of array elements, as JS `Array.prototype.toString`. -/
def jsStringList : List Json → String
  | [] => ""
  | [v] => jsString v
  | v :: rest => jsString v ++ "," ++ jsStringList rest

end

/-- JavaScript truthiness of a value (`if (v)`).  `NaN` is not modelled;
the program never produces it on the guarded paths. -/
def jsTruthy : Json → Bool
  | .null => false
  | .bool b => b
  | .num n => n != 0
  | .str s => s != ""
  | .arr _ => true
  | .obj _ => true

/-- Truthiness of a possibly-absent value: JS `undefined` (modelled `none`)
is falsy. -/
def jsTruthyOpt : Option Json → Bool
  | none => false
  | some v => jsTruthy v

/-- Property lookup on a field dictionary: first binding wins, as JS object
keys are unique. -/
def lookupField : List (String × Json) → String → Option Json
  | [], _ => none
  | (k, v) :: rest, key => if k = key then some v else lookupField rest key

/-- JavaScript property access `j.key`: `none` models `undefined` (also for
access on a non-object, where the program would see `undefined` or throw). -/
def Json.getField (j : Json) (key : String) : Option Json :=
  match j with
  | .obj fields => lookupField fields key
  | _ => none

/-! ## The resilient request function `requestJSON` (src/http.mjs)

```js
export async function requestJSON(url, options = {},
    { retries = 5, baseDelayMs = 400 } = {}) {
  for (let i = 0; i <= retries; i++) {
    const res = await fetch(url, options);
    if (res.status === 429 || res.status >= 500) {
      if (i === retries) {
        const text = await res.text().catch(() => "");
        throw new Error(`HTTP ${res.status} after ${retries} retries: ${text}`);
      }
      await sleep(baseDelayMs * 2 ** i);
      continue;
    }
    if (!res.ok) {
      const text = await res.text().catch(() => "");
      throw new Error(`HTTP ${res.status}: ${text}`);
    }
    return res.json();
  }
}
```
-/

/-- A fetch `Response` as this program observes it: the status code, the
outcome of `res.text()` (`none` models a rejected body read) and the outcome
of `res.json()` (`.error` models a rejected JSON parse, carrying the parse
error). -/
structure HttpResponse where
  status : Nat
  textResult : Option String
  jsonResult : Except String Json

/-- The WHATWG fetch `Response.ok` flag: status in the inclusive range
200..299. -/
def HttpResponse.isOk (r : HttpResponse) : Bool :=
  decide (200 ≤ r.status ∧ r.status ≤ 299)

/-- Models `await res.text().catch(() => "")`: a rejected body read
degrades to the empty string. -/
def HttpResponse.textOrEmpty (r : HttpResponse) : String :=
  r.textResult.getD ""

/-- Outcome of one `fetch(url, options)` call: either the fetch promise
itself rejects (transport-level failure, carrying the original error) or a
response arrives. -/
inductive FetchOutcome where
  | failure (e : String)
  | response (r : HttpResponse)

/-- Final outcome of a `requestJSON` call.  `httpError` is a rejection with
an `Error` the function itself constructs; `transportFailure` and
`parseFailure` are the unchanged rejections of `fetch` and `res.json()`;
`noValue` is the loop running zero times and the function resolving with
`undefined`. -/
inductive ReqResult where
  | success (j : Json)
  | httpError (msg : String)
  | transportFailure (e : String)
  | parseFailure (e : String)
  | noValue

/-- Observable run of `requestJSON`: the outcome, the number of `fetch`
calls performed, and the list of backoff delays slept (in order). -/
structure RunTrace where
  result : ReqResult
  calls : Nat
  delays : List Nat

/-- The retry loop of `requestJSON`, from attempt index `i` on.  `server j`
is the outcome of the `j`-th `fetch`.  `remaining` is the number of loop
iterations still permitted after the current one, i.e. `retries - i`; the
JS guard `i === retries` is `remaining = 0`.  (The top level below
establishes this correspondence; a negative `retries` never enters the
loop.)  `retries` is carried only for the exhaustion error message. -/
def requestJSONGo (server : Nat → FetchOutcome) (retries : Int) (baseDelayMs : Nat) :
    Nat → Nat → RunTrace
  | i, remaining =>
    match server i with
    | .failure e => ⟨.transportFailure e, 1, []⟩
    | .response r =>
      if r.status = 429 ∨ 500 ≤ r.status then
        match remaining with
        | 0 =>
          ⟨.httpError ("HTTP " ++ toString r.status ++ " after " ++ toString retries
              ++ " retries: " ++ r.textOrEmpty), 1, []⟩
        | rem + 1 =>
          let rest := requestJSONGo server retries baseDelayMs (i + 1) rem
          ⟨rest.result, rest.calls + 1, baseDelayMs * 2 ^ i :: rest.delays⟩
      else if r.isOk = false then
        ⟨.httpError ("HTTP " ++ toString r.status ++ ": " ++ r.textOrEmpty), 1, []⟩
      else
        match r.jsonResult with
        | .ok j => ⟨.success j, 1, []⟩
        | .error e => ⟨.parseFailure e, 1, []⟩

/-- Body of `requestJSON` with effective (already-defaulted) retry parameters.  The
JS `for (let i = 0; i <= retries; i++)` runs zero times when `retries < 0`
(the function then resolves with `undefined`); otherwise the loop starts at
attempt 0 with `retries` further iterations permitted. -/
def requestJSONWith (server : Nat → FetchOutcome) (retries : Int) (baseDelayMs : Nat) :
    RunTrace :=
  if retries < 0 then ⟨.noValue, 0, []⟩
  else requestJSONGo server retries baseDelayMs 0 retries.toNat

/-- The third parameter of `requestJSON`; each field `none` means the caller
omitted it and the destructuring default applies. -/
structure RetryConfig where
  retries : Option Int := none
  baseDelayMs : Option Nat := none
deriving Repr, DecidableEq

/-- Effective retry count: destructuring default 5. -/
def effRetries (config : Option RetryConfig) : Int :=
  ((config.getD {}).retries).getD 5

/-- Effective base delay: destructuring default 400. -/
def effBaseDelayMs (config : Option RetryConfig) : Nat :=
  ((config.getD {}).baseDelayMs).getD 400

/-- The function `requestJSON(url, options, retryConfig)`.  `url` and `options` are
forwarded verbatim to every `fetch`; they are absorbed into `server`, which
gives the outcome of each attempt. -/
def requestJSON (server : Nat → FetchOutcome) (config : Option RetryConfig) : RunTrace :=
  requestJSONWith server (effRetries config) (effBaseDelayMs config)

/-! ## The record repository `AirtableRepo` (src/airtableRepo.mjs)

Every method issues its HTTP traffic through `requestJSON`; here each
method is embedded as a function of the responses the store would give
(one per issued request, in order), returning its JS result together with
the list of structured requests it issued and, for the batch mutations,
the polite delays slept.  A trace entry records the request at the level
the code builds it: the table, the un-encoded `filterByFormula` string for
a GET, the record payload for a POST/PATCH.
-/

/-- One request the repository issues against the store. -/
inductive RepoCall where
  | query (table : String) (filterByFormula : String)
  | patchOne (table : String) (recId : String) (fields : List (String × Json))
  | postRecords (table : String) (records : List Json)
  | patchRecords (table : String) (records : List Json)

/-- The `chunk` helper:
`Array.from({length: Math.ceil(arr.length / size)}, (_, i) => arr.slice(i*size, (i+1)*size))`.
`(n + size - 1) / size` is `Math.ceil(n / size)` in natural division. -/
def chunk {α : Type} (arr : List α) (size : Nat) : List (List α) :=
  (List.range ((arr.length + size - 1) / size)).map
    (fun i => (arr.drop (i * size)).take size)

/-- The `quote` helper: `String(v).replace(/"/g, '\\"')` — every double
quote in the stringified value is prefixed with a backslash. -/
def quote (v : Json) : String :=
  String.mk ((jsString v).data.foldr
    (fun c acc => if c = '\"' then '\\' :: '\"' :: acc else c :: acc) [])

/-- The per-field filter formula `{field} = "quote(value)"` built by
`findAllByField` and (per key) by `findRecordsByKeys`. -/
def fieldFilter (field : String) (value : Json) : String :=
  "\x7b" ++ field ++ "\x7d = \"" ++ quote value ++ "\""

/-- Models `json.records || []` followed by iteration over it: the
`records` field when it is an array, the empty list when it is absent or
falsy.  (A truthy non-array `records`, which would make the JS crash where
it iterates, is outside the modelled behaviours.) -/
def recordsOrEmpty (json : Json) : List Json :=
  match json.getField "records" with
  | some (.arr recs) => recs
  | _ => []

/-- Operation `findAllByField(table, field, value)`: one GET with the single-field
filter and page size 100, returning `json.records || []`.  `response` is
the store's reply to that GET; the issued call is returned alongside. -/
def findAllByField (table field : String) (value : Json) (response : Json) :
    List Json × RepoCall :=
  (recordsOrEmpty response, .query table (fieldFilter field value))

/-- Operation `findOneByField(table, field, value)`: delegates to `findAllByField`;
with more than one match and `strictDuplicates` set it throws the
duplicate error, otherwise it returns `all[0] || null` (`none` models
`null`). -/
def findOneByField (strict : Bool) (table field : String) (value : Json)
    (response : Json) : Except String (Option Json) × RepoCall :=
  let found := findAllByField table field value response
  if 1 < found.1.length ∧ strict = true then
    (.error ("Duplicate " ++ table ++ " where " ++ field ++ "=\"" ++ jsString value
        ++ "\" (" ++ toString found.1.length ++ " found)"), found.2)
  else (.ok found.1.head?, found.2)

/-- The string interpolation `${existing.id}` used to build the PATCH URL:
`String` of the `id` property, `"undefined"` when it is absent. -/
def recIdString (rec : Json) : String :=
  match rec.getField "id" with
  | some v => jsString v
  | none => "undefined"

/-- Result of `upsertByKey`: a thrown `Error`, a returned identifier value
(`none` models returning `undefined`), or the TypeError the JS would raise
reading `json.records[0].id` off a response without such a path. -/
inductive UpsertOutcome where
  | thrown (msg : String)
  | returned (id : Option Json)
  | typeError

/-- The create path's returned identifier `json.records[0].id`. -/
def postCreatedId (json : Json) : UpsertOutcome :=
  match json.getField "records" with
  | some (.arr (r0 :: _)) => .returned (r0.getField "id")
  | _ => .typeError

/-- Operation `upsertByKey(table, keyField, fields)`.  `lookupResponse` is the
store's reply to the lookup GET, `mutResponse` its reply to the PATCH or
POST that may follow.  A falsy `fields[keyField]` throws before any
request is made; an existing record is PATCHed at its id and `json.id` of
the reply is returned; otherwise one record is POSTed and
`json.records[0].id` of the reply is returned. -/
def upsertByKey (strict : Bool) (table keyField : String)
    (fields : List (String × Json)) (lookupResponse mutResponse : Json) :
    UpsertOutcome × List RepoCall :=
  match lookupField fields keyField with
  | none => (.thrown ("Upsert missing " ++ keyField), [])
  | some keyVal =>
    if jsTruthy keyVal = true then
      match findOneByField strict table keyField keyVal lookupResponse with
      | (.error msg, call) => (.thrown msg, [call])
      | (.ok (some existing), call) =>
          (.returned (mutResponse.getField "id"),
           [call, .patchOne table (recIdString existing) fields])
      | (.ok none, call) =>
          (postCreatedId mutResponse,
           [call, .postRecords table [Json.obj [("fields", Json.obj fields)]]])
    else (.thrown ("Upsert missing " ++ keyField), [])

/-! ### findRecordsByKeys -/

/-- JS `Map.prototype.set` on an association list: an existing key keeps
its position and gets the new value, a new key is appended. -/
def jsMapSet (m : List (String × Option Json)) (k : String) (v : Option Json) :
    List (String × Option Json) :=
  if m.any (fun p => p.1 = k) then
    m.map (fun p => if p.1 = k then (k, v) else p)
  else m ++ [(k, v)]

/-- JS `Map.prototype.get` on the association list (first hit; keys stay
unique, so at most one hit exists). -/
def jsMapGet (m : List (String × Option Json)) (k : String) : Option (Option Json) :=
  match m with
  | [] => none
  | p :: rest => if p.1 = k then some p.2 else jsMapGet rest k

/-- The record's key-field value `rec.fields?.[keyField]`; `none` models
`undefined` (absent `fields` object or absent key). -/
def recKeyVal (keyField : String) (rec : Json) : Option Json :=
  match rec.getField "fields" with
  | some fs => fs.getField keyField
  | none => none

/-- The loop body over one returned record:
`const val = rec.fields?.[keyField]; if (val) map.set(String(val), rec.id)`. -/
def addRec (keyField : String) (m : List (String × Option Json)) (rec : Json) :
    List (String × Option Json) :=
  match recKeyVal keyField rec with
  | some val => if jsTruthy val = true then jsMapSet m (jsString val) (rec.getField "id") else m
  | none => m

/-- The OR-combined formula `OR(${group.join(",")})` for one group of
per-key conditions. -/
def orFilter (group : List String) : String :=
  "OR(" ++ String.intercalate "," group ++ ")"

/-- The group loop of `findRecordsByKeys`: one GET per group of conditions
(the reply to the `i`-th GET is `resp i`), folding every returned record
into the map. -/
def keysLoop (table keyField : String) (resp : Nat → Json) :
    List (List String) → Nat → List (String × Option Json) →
    List (String × Option Json) × List RepoCall
  | [], _, m => (m, [])
  | group :: groups, i, m =>
    let m2 := (recordsOrEmpty (resp i)).foldl (addRec keyField) m
    let rest := keysLoop table keyField resp groups (i + 1) m2
    (rest.1, .query table (orFilter group) :: rest.2)

/-- Operation `findRecordsByKeys(table, keyField, keys)`: drops falsy keys, builds one
equality condition per remaining key, chunks the conditions in groups of
20, issues one GET per group and merges every reply into the key → id
map. -/
def keyConditions (keyField : String) (keys : List Json) : List String :=
  (keys.filter jsTruthy).map (fun k => fieldFilter keyField k)

def findRecordsByKeys (table keyField : String) (keys : List Json)
    (resp : Nat → Json) : List (String × Option Json) × List RepoCall :=
  keysLoop table keyField resp (chunk (keyConditions keyField keys) 20) 0 []

/-! ### createMany / updateMany -/

/-- The `cfg.airtable.limits` object of src/config.mjs: `batchSize` 10 and
`politeDelayMs` 120, both literal in the configuration. -/
structure AirtableLimits where
  batchSize : Nat
  politeDelayMs : Nat
deriving Repr, DecidableEq

/-- The configured limits: `{ batchSize: 10, politeDelayMs: 120 }`. -/
def cfgLimits : AirtableLimits := ⟨10, 120⟩

/-- Which mutation verb a batch loop sends. -/
inductive BatchMethod where
  | post
  | patch
deriving Repr, DecidableEq

/-- The request a batch iteration issues for its group. -/
def mkBatchCall : BatchMethod → String → List Json → RepoCall
  | .post => .postRecords
  | .patch => .patchRecords

/-- Observable run of `createMany`/`updateMany`: the accumulated `out`
array, the issued requests, and the polite delays slept (in order). -/
structure BatchRun where
  out : List Json
  calls : List RepoCall
  delays : List Nat

/-- The shared batch loop of `createMany` and `updateMany`: for each group
one request with the group as payload (the reply to the `i`-th request is
`resp i`), `out.push(...(json.records || []))`, then the polite delay —
also after the final group. -/
def batchLoop (method : BatchMethod) (table : String) (politeDelayMs : Nat)
    (resp : Nat → Json) : List (List Json) → Nat → BatchRun
  | [], _ => ⟨[], [], []⟩
  | group :: groups, i =>
    let json := resp i
    let rest := batchLoop method table politeDelayMs resp groups (i + 1)
    ⟨recordsOrEmpty json ++ rest.out, mkBatchCall method table group :: rest.calls,
     politeDelayMs :: rest.delays⟩

/-- Operation `createMany(table, records)`: POST one batch of at most
`limits.batchSize` records per request, with the polite delay after every
batch. -/
def createMany (limits : AirtableLimits) (table : String) (records : List Json)
    (resp : Nat → Json) : BatchRun :=
  batchLoop .post table limits.politeDelayMs resp (chunk records limits.batchSize) 0

/-- Operation `updateMany(table, records)`: identical batching and delay discipline
with PATCH semantics. -/
def updateMany (limits : AirtableLimits) (table : String) (records : List Json)
    (resp : Nat → Json) : BatchRun :=
  batchLoop .patch table limits.politeDelayMs resp (chunk records limits.batchSize) 0



/-! ### Derived observable quantities and concrete test fixtures

`returnedRecords`, `matchEntry` and `lastMatchId` name, for the theorem
statements, the observable quantities the spec talks about: all records
the store returned across a sequence of GETs, and the id of the last
returned record whose (truthy) key field stringifies to a given key.
The remaining definitions are the concrete servers, keys and store
replies used to instantiate the theorems at explicit inputs. -/

/-- All records the store returned across `numGroups` consecutive
requests (reply to request `i` is `resp i`), in arrival order. -/
def returnedRecords (resp : Nat → Json) (numGroups : Nat) : List Json :=
  ((List.range numGroups).map (fun i => recordsOrEmpty (resp i))).flatten

/-- The map entry a single returned record contributes for key `k`:
`some` of its `id` property when its truthy key field stringifies to `k`. -/
def matchEntry (keyField k : String) (rec : Json) : Option (Option Json) :=
  match recKeyVal keyField rec with
  | some val =>
      if jsTruthy val = true ∧ jsString val = k then some (rec.getField "id") else none
  | none => none

/-- The id of the last record in the list matching key `k` (later records
override earlier ones, as later `Map.set` calls win). -/
def lastMatchId (keyField k : String) : List Json → Option (Option Json)
  | [] => none
  | rec :: rest =>
    match lastMatchId keyField k rest with
    | some v => some v
    | none => matchEntry keyField k rec

/-- A server that answers 429 with body text `Rate Limited` forever. -/
def alwaysRateLimited : Nat → FetchOutcome :=
  fun _ => .response ⟨429, some "Rate Limited", .error "no body"⟩

/-- A server that answers 404 with an unreadable body forever. -/
def always404 : Nat → FetchOutcome := fun _ => .response ⟨404, none, .error "no body"⟩

/-- A server that answers 429 once and then fails at the transport level. -/
def failsAfterOne : Nat → FetchOutcome :=
  fun n => if n = 0 then .response ⟨429, some "Rate Limited", .error "no body"⟩
           else .failure "connection refused"

/-- A server that answers 500 once and then 200 with a JSON body. -/
def recoversAfterOne : Nat → FetchOutcome :=
  fun n => if n = 0 then .response ⟨500, some "Internal Server Error", .error "no body"⟩
           else .response ⟨200, some "body", .ok (Json.obj [("success", Json.bool true)])⟩

/-- Twenty-one distinct truthy string keys. -/
def goodKeys : List Json := (List.range 21).map (fun n => Json.str (toString n))

/-- Twenty-one keys of which the first is falsy (the empty string). -/
def badKeys : List Json :=
  Json.str "" :: (List.range 20).map (fun n => Json.str (toString n))

/-- Eleven record field-dictionaries. -/
def recs11 : List Json :=
  (List.range 11).map (fun n => Json.obj [("name", Json.str (toString n))])

/-- A field dictionary without the key field. -/
def fieldsNoKey : List (String × Json) := [("title", Json.str "Cafe")]

/-- A field dictionary carrying the key field `placeId`. -/
def fieldsWithKey : List (String × Json) :=
  [("placeId", Json.str "p1"), ("title", Json.str "Cafe")]

/-- A stored record with id `rec1` and key value `p1`. -/
def existingRecord : Json :=
  Json.obj [("id", Json.str "rec1"), ("fields", Json.obj [("placeId", Json.str "p1")])]

/-- A lookup reply containing exactly `existingRecord`. -/
def lookupHit : Json := Json.obj [("records", Json.arr [existingRecord])]

/-- A lookup reply containing no records. -/
def lookupMiss : Json := Json.obj [("records", Json.arr [])]

/-- A PATCH reply echoing the patched record id. -/
def patchReply : Json := Json.obj [("id", Json.str "rec1")]

/-- A batch-creation reply whose first element has id `recNew`. -/
def postReply : Json :=
  Json.obj [("records", Json.arr [Json.obj [("id", Json.str "recNew")]])]

/-! ## Lemmas and claim theorems -/

lemma go_transport_step (server : Nat → FetchOutcome) (retries : Int) (b i rem : Nat)
    (e : String) (hs : server i = .failure e) :
    requestJSONGo server retries b i rem = ⟨.transportFailure e, 1, []⟩ := by
  unfold requestJSONGo
  rw [hs]

lemma go_exhaust_step (server : Nat → FetchOutcome) (retries : Int) (b i : Nat)
    (r : HttpResponse) (hs : server i = .response r)
    (hr : r.status = 429 ∨ 500 ≤ r.status) :
    requestJSONGo server retries b i 0 =
      ⟨.httpError ("HTTP " ++ toString r.status ++ " after " ++ toString retries
          ++ " retries: " ++ r.textOrEmpty), 1, []⟩ := by
  unfold requestJSONGo
  rw [hs]
  simp [hr]

lemma go_continue_step (server : Nat → FetchOutcome) (retries : Int) (b i rem : Nat)
    (r : HttpResponse) (hs : server i = .response r)
    (hr : r.status = 429 ∨ 500 ≤ r.status) :
    requestJSONGo server retries b i (rem + 1) =
      ⟨(requestJSONGo server retries b (i + 1) rem).result,
       (requestJSONGo server retries b (i + 1) rem).calls + 1,
       b * 2 ^ i :: (requestJSONGo server retries b (i + 1) rem).delays⟩ := by
  conv_lhs => rw [requestJSONGo]
  rw [hs]
  simp [hr]



lemma go_client_step (server : Nat → FetchOutcome) (retries : Int) (b i rem : Nat)
    (r : HttpResponse) (hs : server i = .response r)
    (h429 : r.status ≠ 429) (h5 : r.status < 500) (hok : r.isOk = false) :
    requestJSONGo server retries b i rem =
      ⟨.httpError ("HTTP " ++ toString r.status ++ ": " ++ r.textOrEmpty), 1, []⟩ := by
  unfold requestJSONGo
  rw [hs]
  have hcond : ¬ (r.status = 429 ∨ 500 ≤ r.status) := by
    push_neg
    exact ⟨h429, by omega⟩
  simp [hcond, hok]

lemma go_success_step (server : Nat → FetchOutcome) (retries : Int) (b i rem : Nat)
    (r : HttpResponse) (j : Json) (hs : server i = .response r)
    (hok : r.isOk = true) (hj : r.jsonResult = .ok j) :
    requestJSONGo server retries b i rem = ⟨.success j, 1, []⟩ := by
  unfold requestJSONGo
  rw [hs]
  simp only [HttpResponse.isOk, decide_eq_true_eq] at hok
  have hcond : ¬ (r.status = 429 ∨ 500 ≤ r.status) := by omega
  simp [hcond, HttpResponse.isOk, hj]
  omega



lemma range_map_shift {β : Type} (f : Nat → β) (i len : Nat) :
    (List.range (len + 1)).map (fun j => f (i + j)) =
      f i :: (List.range len).map (fun j => f (i + 1 + j)) := by
  rw [List.range_succ_eq_map, List.map_cons, List.map_map]
  congr 1
  apply List.map_congr_left
  intro a _
  simp only [Function.comp_apply]
  congr 1
  omega

lemma geom_shift (b i m : Nat) :
    (List.range (m + 1)).map (fun j => b * 2 ^ (i + j)) =
      b * 2 ^ i :: (List.range m).map (fun j => b * 2 ^ (i + 1 + j)) :=
  range_map_shift (fun t => b * 2 ^ t) i m

lemma go_skip (server : Nat → FetchOutcome) (resp : Nat → HttpResponse)
    (retries : Int) (b : Nat) :
    ∀ (m i rem : Nat), m ≤ rem →
    (∀ j, j < m → server (i + j) = .response (resp (i + j)) ∧
        ((resp (i + j)).status = 429 ∨ 500 ≤ (resp (i + j)).status)) →
    requestJSONGo server retries b i rem =
      ⟨(requestJSONGo server retries b (i + m) (rem - m)).result,
       (requestJSONGo server retries b (i + m) (rem - m)).calls + m,
       (List.range m).map (fun j => b * 2 ^ (i + j)) ++
         (requestJSONGo server retries b (i + m) (rem - m)).delays⟩ := by
  intro m
  induction m with
  | zero => intro i rem _ _; simp
  | succ m ih =>
    intro i rem hm hpre
    obtain ⟨rem', rfl⟩ : ∃ rem', rem = rem' + 1 := ⟨rem - 1, by omega⟩
    have h0 := hpre 0 (by omega)
    rw [Nat.add_zero] at h0
    rw [go_continue_step server retries b i rem' (resp i) h0.1 h0.2]
    have hpre' : ∀ j, j < m → server (i + 1 + j) = .response (resp (i + 1 + j)) ∧
        ((resp (i + 1 + j)).status = 429 ∨ 500 ≤ (resp (i + 1 + j)).status) := by
      intro j hj
      have hq := hpre (j + 1) (by omega)
      rwa [show i + (j + 1) = i + 1 + j by omega] at hq
    rw [ih (i + 1) rem' (by omega) hpre']
    have hidx : i + 1 + m = i + (m + 1) := by omega
    have hrem : rem' - m = rem' + 1 - (m + 1) := by omega
    rw [hidx, hrem]
    simp only [RunTrace.mk.injEq]
    refine ⟨trivial, by omega, ?_⟩
    rw [geom_shift b i m, List.cons_append]



lemma go_parse_step (server : Nat → FetchOutcome) (retries : Int) (b i rem : Nat)
    (r : HttpResponse) (e : String) (hs : server i = .response r)
    (hok : r.isOk = true) (hj : r.jsonResult = .error e) :
    requestJSONGo server retries b i rem = ⟨.parseFailure e, 1, []⟩ := by
  unfold requestJSONGo
  rw [hs]
  simp only [HttpResponse.isOk, decide_eq_true_eq] at hok
  have hcond : ¬ (r.status = 429 ∨ 500 ≤ r.status) := by omega
  simp [hcond, HttpResponse.isOk, hj]
  omega

lemma go_delays (server : Nat → FetchOutcome) (retries : Int) (b : Nat) :
    ∀ (rem i : Nat),
      (requestJSONGo server retries b i rem).delays =
        (List.range (requestJSONGo server retries b i rem).delays.length).map
          (fun j => b * 2 ^ (i + j)) := by
  intro rem
  induction rem with
  | zero =>
    intro i
    cases hsv : server i with
    | failure e => rw [go_transport_step server retries b i 0 e hsv]; rfl
    | response r =>
      by_cases hc : r.status = 429 ∨ 500 ≤ r.status
      · rw [go_exhaust_step server retries b i r hsv hc]; rfl
      · cases hok : r.isOk with
        | false =>
          push_neg at hc
          rw [go_client_step server retries b i 0 r hsv hc.1 (by omega) hok]; rfl
        | true =>
          cases hj : r.jsonResult with
          | ok j => rw [go_success_step server retries b i 0 r j hsv hok hj]; rfl
          | error e => rw [go_parse_step server retries b i 0 r e hsv hok hj]; rfl
  | succ rem ih =>
    intro i
    cases hsv : server i with
    | failure e => rw [go_transport_step server retries b i (rem + 1) e hsv]; rfl
    | response r =>
      by_cases hc : r.status = 429 ∨ 500 ≤ r.status
      · rw [go_continue_step server retries b i rem r hsv hc]
        show b * 2 ^ i :: (requestJSONGo server retries b (i + 1) rem).delays =
          (List.range ((b * 2 ^ i ::
            (requestJSONGo server retries b (i + 1) rem).delays).length)).map
              (fun j => b * 2 ^ (i + j))
        rw [List.length_cons, geom_shift b i]
        congr 1
        exact ih (i + 1)
      · cases hok : r.isOk with
        | false =>
          push_neg at hc
          rw [go_client_step server retries b i (rem + 1) r hsv hc.1 (by omega) hok]; rfl
        | true =>
          cases hj : r.jsonResult with
          | ok j => rw [go_success_step server retries b i (rem + 1) r j hsv hok hj]; rfl
          | error e => rw [go_parse_step server retries b i (rem + 1) r e hsv hok hj]; rfl

lemma go_ne_noValue (server : Nat → FetchOutcome) (retries : Int) (b : Nat) :
    ∀ (rem i : Nat), (requestJSONGo server retries b i rem).result ≠ .noValue := by
  intro rem
  induction rem with
  | zero =>
    intro i
    cases hsv : server i with
    | failure e => rw [go_transport_step server retries b i 0 e hsv]; intro h; cases h
    | response r =>
      by_cases hc : r.status = 429 ∨ 500 ≤ r.status
      · rw [go_exhaust_step server retries b i r hsv hc]; intro h; cases h
      · cases hok : r.isOk with
        | false =>
          push_neg at hc
          rw [go_client_step server retries b i 0 r hsv hc.1 (by omega) hok]
          intro h; cases h
        | true =>
          cases hj : r.jsonResult with
          | ok j => rw [go_success_step server retries b i 0 r j hsv hok hj]; intro h; cases h
          | error e => rw [go_parse_step server retries b i 0 r e hsv hok hj]; intro h; cases h
  | succ rem ih =>
    intro i
    cases hsv : server i with
    | failure e => rw [go_transport_step server retries b i (rem + 1) e hsv]; intro h; cases h
    | response r =>
      by_cases hc : r.status = 429 ∨ 500 ≤ r.status
      · rw [go_continue_step server retries b i rem r hsv hc]
        exact ih (i + 1)
      · cases hok : r.isOk with
        | false =>
          push_neg at hc
          rw [go_client_step server retries b i (rem + 1) r hsv hc.1 (by omega) hok]
          intro h; cases h
        | true =>
          cases hj : r.jsonResult with
          | ok j => rw [go_success_step server retries b i (rem + 1) r j hsv hok hj]; intro h; cases h
          | error e => rw [go_parse_step server retries b i (rem + 1) r e hsv hok hj]; intro h; cases h



lemma go_skip0 (server : Nat → FetchOutcome) (resp : Nat → HttpResponse)
    (retries : Int) (b : Nat) (m rem : Nat) (hm : m ≤ rem)
    (hpre : ∀ j, j < m → server j = .response (resp j) ∧
        ((resp j).status = 429 ∨ 500 ≤ (resp j).status)) :
    requestJSONGo server retries b 0 rem =
      ⟨(requestJSONGo server retries b m (rem - m)).result,
       (requestJSONGo server retries b m (rem - m)).calls + m,
       (List.range m).map (fun j => b * 2 ^ j) ++
         (requestJSONGo server retries b m (rem - m)).delays⟩ := by
  have h := go_skip server resp retries b m 0 rem hm (by intro t ht; simpa using hpre t ht)
  simpa using h

/-- C1: when every attempt up to the retry budget returns status 429 or a
status at least 500 (status `s` on every attempt), `requestJSON` with
`retries = R` performs exactly `R + 1` network calls and rejects with the
message `HTTP <s> after <R> retries: <final body text>`. -/
theorem requestJSON_retry_exhaustion (server : Nat → FetchOutcome)
    (resp : Nat → HttpResponse) (R b s : Nat)
    (hresp : ∀ j, j ≤ R → server j = .response (resp j))
    (hstat : ∀ j, j ≤ R → (resp j).status = s)
    (hs : s = 429 ∨ 500 ≤ s) :
    requestJSON server (some ⟨some (R : Int), some b⟩) =
      ⟨.httpError ("HTTP " ++ toString s ++ " after " ++ toString (R : Int)
          ++ " retries: " ++ (resp R).textOrEmpty),
       R + 1, (List.range R).map (fun t => b * 2 ^ t)⟩ := by
  show requestJSONWith server (R : Int) b = _
  unfold requestJSONWith
  rw [if_neg (by omega : ¬ (R : Int) < 0)]
  have htn : ((R : Int)).toNat = R := by omega
  rw [htn]
  have hpre : ∀ j, j < R → server j = .response (resp j) ∧
      ((resp j).status = 429 ∨ 500 ≤ (resp j).status) := by
    intro j hj
    exact ⟨hresp j (by omega), by rw [hstat j (by omega)]; exact hs⟩
  rw [go_skip0 server resp (R : Int) b R R le_rfl hpre, Nat.sub_self]
  have hsR : (resp R).status = 429 ∨ 500 ≤ (resp R).status := by
    rw [hstat R le_rfl]; exact hs
  rw [go_exhaust_step server (R : Int) b R (resp R) (hresp R le_rfl) hsR]
  rw [hstat R le_rfl]
  simp only [List.append_nil, RunTrace.mk.injEq]
  exact ⟨trivial, by omega, trivial⟩


/-- Witness for C1: a server always answering 429 `Rate Limited`, with
`retries = 2` and `baseDelayMs = 10`, yields exactly 3 calls, the message
`HTTP 429 after 2 retries: Rate Limited`, and delays 10, 20. -/
theorem requestJSON_retry_exhaustion_witness :
    requestJSON alwaysRateLimited (some ⟨some ((2 : Nat) : Int), some 10⟩) =
      ⟨.httpError "HTTP 429 after 2 retries: Rate Limited", 3, [10, 20]⟩ := by
  have h := requestJSON_retry_exhaustion alwaysRateLimited
      (fun _ => ⟨429, some "Rate Limited", .error "no body"⟩)
      2 10 429 (fun j hj => rfl) (fun j hj => rfl) (Or.inl rfl)
  rw [h]
  rfl



/-- C2: a first response whose status is outside the 2xx/3xx range and is
neither 429 nor ≥ 500 makes `requestJSON` reject after exactly one call
with message `HTTP <status>: <text>`, where the text degrades to the empty
string when the body read fails (`textOrEmpty`); the status error is never
replaced by the body-read failure. -/
theorem requestJSON_client_error (server : Nat → FetchOutcome) (r : HttpResponse)
    (config : Option RetryConfig)
    (h0 : server 0 = .response r)
    (hret : 0 ≤ effRetries config)
    (h429 : r.status ≠ 429)
    (h5 : r.status < 500)
    (hrange : ¬ (200 ≤ r.status ∧ r.status ≤ 399)) :
    requestJSON server config =
      ⟨.httpError ("HTTP " ++ toString r.status ++ ": " ++ r.textOrEmpty), 1, []⟩ := by
  unfold requestJSON requestJSONWith
  rw [if_neg (by omega : ¬ effRetries config < 0)]
  have hok : r.isOk = false := by
    simp only [HttpResponse.isOk, decide_eq_false_iff_not]
    omega
  exact go_client_step server (effRetries config) (effBaseDelayMs config) 0
    ((effRetries config).toNat) r h0 h429 h5 hok


/-- Witness for C2: a 404 whose body read fails yields one call and the
message `HTTP 404: ` with empty text. -/
theorem requestJSON_client_error_witness :
    requestJSON always404 none = ⟨.httpError "HTTP 404: ", 1, []⟩ := by
  have h := requestJSON_client_error always404 ⟨404, none, .error "no body"⟩ none rfl
      (by decide) (by decide) (by decide) (by decide)
  rw [h]
  rfl

/-- C3: when the underlying fetch itself rejects (after any prefix of
retryable responses), `requestJSON` rejects with the same original error,
unchanged and unwrapped, and performs no further call. -/
theorem requestJSON_transport_failure (server : Nat → FetchOutcome)
    (resp : Nat → HttpResponse) (config : Option RetryConfig) (k : Nat) (e : String)
    (hk : (k : Int) ≤ effRetries config)
    (hpre : ∀ j, j < k → server j = .response (resp j) ∧
        ((resp j).status = 429 ∨ 500 ≤ (resp j).status))
    (hfail : server k = .failure e) :
    (requestJSON server config).result = .transportFailure e ∧
    (requestJSON server config).calls = k + 1 := by
  have hk2 : k ≤ (effRetries config).toNat := by omega
  unfold requestJSON requestJSONWith
  rw [if_neg (by omega : ¬ effRetries config < 0)]
  rw [go_skip0 server resp (effRetries config) (effBaseDelayMs config) k
      ((effRetries config).toNat) hk2 hpre]
  rw [go_transport_step server (effRetries config) (effBaseDelayMs config) k
      ((effRetries config).toNat - k) e hfail]
  constructor
  · rfl
  · show 1 + k = k + 1
    omega


/-- Witness for C3: one 429 response followed by a transport failure gives
exactly 2 calls and the original `connection refused` error. -/
theorem requestJSON_transport_failure_witness :
    (requestJSON failsAfterOne none).result = .transportFailure "connection refused" ∧
    (requestJSON failsAfterOne none).calls = 2 := by
  have h := requestJSON_transport_failure failsAfterOne
      (fun _ => ⟨429, some "Rate Limited", .error "no body"⟩) none 1 "connection refused"
      (by decide)
      (fun j hj => by
        have hj0 : j = 0 := by omega
        subst hj0
        exact ⟨rfl, Or.inl rfl⟩)
      rfl
  exact ⟨h.1, by rw [h.2]⟩

/-- C4: a sequence of `k` retryable responses followed by a success whose
body parses as `j`, with `k` within the retry budget, makes `requestJSON`
resolve with `j` after exactly `k + 1` calls (no further calls after the
success), sleeping the geometric backoff delays meanwhile. -/
theorem requestJSON_retry_recovery (server : Nat → FetchOutcome)
    (resp : Nat → HttpResponse) (config : Option RetryConfig) (k : Nat)
    (r : HttpResponse) (j : Json)
    (hk : (k : Int) ≤ effRetries config)
    (hpre : ∀ t, t < k → server t = .response (resp t) ∧
        ((resp t).status = 429 ∨ 500 ≤ (resp t).status))
    (hsucc : server k = .response r)
    (hok : r.isOk = true)
    (hjson : r.jsonResult = .ok j) :
    requestJSON server config =
      ⟨.success j, k + 1,
       (List.range k).map (fun t => effBaseDelayMs config * 2 ^ t)⟩ := by
  unfold requestJSON requestJSONWith
  rw [if_neg (by omega : ¬ effRetries config < 0)]
  rw [go_skip0 server resp (effRetries config) (effBaseDelayMs config) k
      ((effRetries config).toNat) (by omega) hpre]
  rw [go_success_step server (effRetries config) (effBaseDelayMs config) k
      ((effRetries config).toNat - k) r j hsucc hok hjson]
  simp only [List.append_nil, RunTrace.mk.injEq]
  exact ⟨trivial, by omega, trivial⟩


/-- Witness for C4: 500 then 200 with body `{success: true}` resolves to
that body after exactly 2 calls and one 10 ms delay. -/
theorem requestJSON_retry_recovery_witness :
    requestJSON recoversAfterOne (some ⟨some ((5 : Nat) : Int), some 10⟩) =
      ⟨.success (Json.obj [("success", Json.bool true)]), 2, [10]⟩ := by
  have h := requestJSON_retry_recovery recoversAfterOne
      (fun _ => ⟨500, some "Internal Server Error", .error "no body"⟩)
      (some ⟨some ((5 : Nat) : Int), some 10⟩) 1
      ⟨200, some "body", .ok (Json.obj [("success", Json.bool true)])⟩
      (Json.obj [("success", Json.bool true)])
      (by decide)
      (fun t ht => by
        have ht0 : t = 0 := by omega
        subst ht0
        exact ⟨rfl, Or.inr (by decide)⟩)
      rfl rfl rfl
  rw [h]
  rfl

/-- C5: in every run the sequence of delays slept is
`baseDelayMs * 2 ^ i` for attempt indices `i = 0, 1, 2, ...`; with no
retry configuration the effective parameters are `retries = 5` and
`baseDelayMs = 400`, and overriding either field changes only that
parameter. -/
theorem requestJSON_backoff_and_defaults (server : Nat → FetchOutcome)
    (config : Option RetryConfig) :
    ((requestJSON server config).delays =
      (List.range (requestJSON server config).delays.length).map
        (fun t => effBaseDelayMs config * 2 ^ t))
    ∧ requestJSON server none = requestJSONWith server 5 400
    ∧ (∀ R : Int, requestJSON server (some ⟨some R, none⟩) = requestJSONWith server R 400)
    ∧ (∀ d : Nat, requestJSON server (some ⟨none, some d⟩) = requestJSONWith server 5 d)
    ∧ (∀ R : Int, ∀ d : Nat,
        requestJSON server (some ⟨some R, some d⟩) = requestJSONWith server R d) := by
  refine ⟨?_, rfl, fun R => rfl, fun d => rfl, fun R d => rfl⟩
  unfold requestJSON requestJSONWith
  by_cases h : effRetries config < 0
  · rw [if_pos h]
    rfl
  · rw [if_neg h]
    have hd := go_delays server (effRetries config) (effBaseDelayMs config)
        ((effRetries config).toNat) 0
    simpa using hd

/-- C6: with a non-negative retry count, `requestJSON` never falls off the
end of the retry loop: the `noValue` outcome (resolving with `undefined`)
is unreachable, and the run ends in a parsed JSON body or one of the three
rejection kinds. -/
theorem requestJSON_total_outcome (server : Nat → FetchOutcome)
    (config : Option RetryConfig) (h : 0 ≤ effRetries config) :
    (requestJSON server config).result ≠ .noValue ∧
    ((∃ j, (requestJSON server config).result = .success j) ∨
     (∃ m, (requestJSON server config).result = .httpError m) ∨
     (∃ e, (requestJSON server config).result = .transportFailure e) ∨
     (∃ e, (requestJSON server config).result = .parseFailure e)) := by
  have hne : (requestJSON server config).result ≠ .noValue := by
    unfold requestJSON requestJSONWith
    rw [if_neg (by omega : ¬ effRetries config < 0)]
    exact go_ne_noValue server (effRetries config) (effBaseDelayMs config)
      ((effRetries config).toNat) 0
  refine ⟨hne, ?_⟩
  cases hres : (requestJSON server config).result with
  | success j => exact Or.inl ⟨j, rfl⟩
  | httpError m => exact Or.inr (Or.inl ⟨m, rfl⟩)
  | transportFailure e => exact Or.inr (Or.inr (Or.inl ⟨e, rfl⟩))
  | parseFailure e => exact Or.inr (Or.inr (Or.inr ⟨e, rfl⟩))
  | noValue => exact absurd hres hne

/-- Witness for C6: under the default configuration (retries 5 ≥ 0) a 404
server produces an outcome distinct from `noValue`. -/
theorem requestJSON_total_outcome_witness :
    (0 : Int) ≤ effRetries none ∧ (requestJSON always404 none).result ≠ .noValue :=
  ⟨by decide, (requestJSON_total_outcome always404 none (by decide)).1⟩



lemma chunk_length {α : Type} (arr : List α) (size : Nat) :
    (chunk arr size).length = (arr.length + size - 1) / size := by
  simp [chunk]

lemma chunk_nil {α : Type} (size : Nat) : chunk ([] : List α) size = [] := by
  unfold chunk
  have h : (List.length ([] : List α) + size - 1) / size = 0 := by
    cases size with
    | zero => simp
    | succ m =>
      apply Nat.div_eq_of_lt
      simp
  rw [h]
  rfl

lemma chunk_count (size : Nat) (hs : 0 < size) (len : Nat) (hlen : 0 < len) :
    (len + size - 1) / size = (len - size + size - 1) / size + 1 := by
  rcases le_or_lt len size with h | h
  · have h0 : len - size = 0 := by omega
    rw [h0]
    have h1 : len + size - 1 = (len - 1) + size := by omega
    rw [h1, Nat.add_div_right _ hs]
    have h2 : (len - 1) / size = 0 := Nat.div_eq_of_lt (by omega)
    have h3 : (0 + size - 1) / size = 0 := Nat.div_eq_of_lt (by omega)
    omega
  · have h1 : len + size - 1 = (len - size + size - 1) + size := by omega
    rw [h1, Nat.add_div_right _ hs]

lemma chunk_cons {α : Type} (size : Nat) (hs : 0 < size) (arr : List α)
    (h : arr ≠ []) :
    chunk arr size = arr.take size :: chunk (arr.drop size) size := by
  have hlen : 0 < arr.length := List.length_pos.mpr h
  unfold chunk
  rw [List.length_drop]
  rw [chunk_count size hs arr.length hlen]
  rw [List.range_succ_eq_map, List.map_cons, List.map_map]
  congr 1
  · simp
  · apply List.map_congr_left
    intro a _
    simp only [Function.comp_apply]
    rw [List.drop_drop]
    congr 2
    rw [Nat.succ_mul]
    omega

lemma chunk_flatten_aux {α : Type} (size : Nat) (hs : 0 < size) :
    ∀ (fuel : Nat) (arr : List α), arr.length ≤ fuel →
      (chunk arr size).flatten = arr := by
  intro fuel
  induction fuel with
  | zero =>
    intro arr harr
    have h0 : arr = [] := List.length_eq_zero.mp (by omega)
    subst h0
    rw [chunk_nil]
    rfl
  | succ fuel ih =>
    intro arr harr
    cases harr2 : arr with
    | nil => rw [chunk_nil]; rfl
    | cons a tl =>
      rw [← harr2]
      have hne : arr ≠ [] := by rw [harr2]; simp
      rw [chunk_cons size hs arr hne, List.flatten_cons]
      rw [ih (arr.drop size) (by rw [List.length_drop]; omega)]
      exact List.take_append_drop size arr

lemma chunk_flatten {α : Type} (size : Nat) (hs : 0 < size) (arr : List α) :
    (chunk arr size).flatten = arr :=
  chunk_flatten_aux size hs arr.length arr le_rfl

lemma chunk_mem_length_le {α : Type} (arr : List α) (size : Nat) :
    ∀ g ∈ chunk arr size, g.length ≤ size := by
  intro g hg
  unfold chunk at hg
  obtain ⟨i, _, rfl⟩ := List.mem_map.mp hg
  rw [List.length_take]
  omega




lemma records_shift (resp : Nat → Json) (i m : Nat) :
    (List.range (m + 1)).map (fun j => recordsOrEmpty (resp (i + j))) =
      recordsOrEmpty (resp i) ::
        (List.range m).map (fun j => recordsOrEmpty (resp (i + 1 + j))) :=
  range_map_shift (fun t => recordsOrEmpty (resp t)) i m

lemma batchLoop_spec (method : BatchMethod) (table : String) (d : Nat)
    (resp : Nat → Json) :
    ∀ (groups : List (List Json)) (i : Nat),
      batchLoop method table d resp groups i =
        ⟨((List.range groups.length).map
            (fun j => recordsOrEmpty (resp (i + j)))).flatten,
         groups.map (mkBatchCall method table),
         List.replicate groups.length d⟩ := by
  intro groups
  induction groups with
  | nil => intro i; rfl
  | cons g gs ih =>
    intro i
    show (⟨recordsOrEmpty (resp i) ++ (batchLoop method table d resp gs (i + 1)).out,
        mkBatchCall method table g :: (batchLoop method table d resp gs (i + 1)).calls,
        d :: (batchLoop method table d resp gs (i + 1)).delays⟩ : BatchRun) = _
    rw [ih (i + 1)]
    simp only [List.length_cons, BatchRun.mk.injEq]
    refine ⟨?_, rfl, rfl⟩
    rw [records_shift resp i gs.length, List.flatten_cons]

/-- C9: `createMany` splits a non-empty input into `ceil(n / 10)` batches
of at most 10 records, issues exactly one POST per batch, accumulates the
returned records in input order across batches, and sleeps the configured
polite delay after every batch including the final one. -/
theorem createMany_batches (table : String) (d : Nat) (records : List Json)
    (resp : Nat → Json) (_hne : records ≠ []) :
    (createMany ⟨10, d⟩ table records resp).calls =
        (chunk records 10).map (RepoCall.postRecords table)
    ∧ (createMany ⟨10, d⟩ table records resp).calls.length =
        (records.length + 9) / 10
    ∧ (chunk records 10).flatten = records
    ∧ (∀ g ∈ chunk records 10, g.length ≤ 10)
    ∧ (createMany ⟨10, d⟩ table records resp).out =
        returnedRecords resp (chunk records 10).length
    ∧ (createMany ⟨10, d⟩ table records resp).delays =
        List.replicate (chunk records 10).length d := by
  unfold createMany
  rw [batchLoop_spec .post table d resp (chunk records 10) 0]
  refine ⟨rfl, ?_, chunk_flatten 10 (by omega) records,
    chunk_mem_length_le records 10, by simp [returnedRecords], rfl⟩
  show ((chunk records 10).map (mkBatchCall .post table)).length = (records.length + 9) / 10
  rw [List.length_map, chunk_length]
  congr 1



lemma jsMapGet_replace_of_any (k : String) (v : Option Json) :
    ∀ (m : List (String × Option Json)), m.any (fun p => p.1 = k) = true →
      jsMapGet (m.map (fun p => if p.1 = k then (k, v) else p)) k = some v := by
  intro m
  induction m with
  | nil => intro h; simp at h
  | cons p rest ih =>
    intro h
    rw [List.map_cons]
    by_cases hp : p.1 = k
    · rw [if_pos hp]
      simp [jsMapGet]
    · rw [if_neg hp]
      show jsMapGet (p :: rest.map (fun p => if p.1 = k then (k, v) else p)) k = some v
      simp only [jsMapGet]
      rw [if_neg hp]
      apply ih
      simp only [List.any_cons, hp, decide_False, Bool.false_or] at h
      exact h

lemma jsMapGet_replace_ne (k k' : String) (v : Option Json) (hne : k' ≠ k) :
    ∀ (m : List (String × Option Json)),
      jsMapGet (m.map (fun p => if p.1 = k then (k, v) else p)) k' = jsMapGet m k' := by
  intro m
  induction m with
  | nil => rfl
  | cons p rest ih =>
    rw [List.map_cons]
    by_cases hp : p.1 = k
    · rw [if_pos hp]
      simp only [jsMapGet]
      rw [if_neg (fun hh => hne hh.symm), if_neg (by rw [hp]; exact fun hh => hne hh.symm)]
      exact ih
    · rw [if_neg hp]
      simp only [jsMapGet]
      by_cases hq : p.1 = k'
      · rw [if_pos hq, if_pos hq]
      · rw [if_neg hq, if_neg hq]
        exact ih

lemma jsMapGet_append_single (k k' : String) (v : Option Json) :
    ∀ (m : List (String × Option Json)),
      jsMapGet (m ++ [(k, v)]) k' =
        match jsMapGet m k' with
        | some w => some w
        | none => if k = k' then some v else none := by
  intro m
  induction m with
  | nil => simp [jsMapGet]
  | cons p rest ih =>
    rw [List.cons_append]
    simp only [jsMapGet]
    by_cases hp : p.1 = k'
    · rw [if_pos hp, if_pos hp]
    · rw [if_neg hp, if_neg hp]
      exact ih

lemma jsMapGet_eq_none_of_any_false (k : String) :
    ∀ (m : List (String × Option Json)), m.any (fun p => p.1 = k) = false →
      jsMapGet m k = none := by
  intro m
  induction m with
  | nil => intro _; rfl
  | cons p rest ih =>
    intro h
    simp only [List.any_cons, Bool.or_eq_false_iff, decide_eq_false_iff_not] at h
    simp only [jsMapGet]
    rw [if_neg h.1]
    exact ih h.2

lemma jsMapGet_set_self (m : List (String × Option Json)) (k : String) (v : Option Json) :
    jsMapGet (jsMapSet m k v) k = some v := by
  unfold jsMapSet
  by_cases h : m.any (fun p => p.1 = k) = true
  · rw [if_pos h]
    exact jsMapGet_replace_of_any k v m h
  · rw [if_neg h]
    rw [jsMapGet_append_single k k v m]
    rw [jsMapGet_eq_none_of_any_false k m (Bool.eq_false_iff.mpr h)]
    simp

lemma jsMapGet_set_ne (m : List (String × Option Json)) (k k' : String)
    (v : Option Json) (hne : k' ≠ k) :
    jsMapGet (jsMapSet m k v) k' = jsMapGet m k' := by
  unfold jsMapSet
  by_cases h : m.any (fun p => p.1 = k) = true
  · rw [if_pos h]
    exact jsMapGet_replace_ne k k' v hne m
  · rw [if_neg h]
    rw [jsMapGet_append_single k k' v m]
    cases hm : jsMapGet m k' with
    | some w => rfl
    | none =>
      show (if k = k' then some v else none) = none
      rw [if_neg (fun hh : k = k' => hne hh.symm)]





lemma jsMapSet_fst_replace (k : String) (v : Option Json)
    (m : List (String × Option Json)) :
    (m.map (fun p => if p.1 = k then (k, v) else p)).map Prod.fst = m.map Prod.fst := by
  rw [List.map_map]
  apply List.map_congr_left
  intro p _
  simp only [Function.comp_apply]
  by_cases hp : p.1 = k
  · rw [if_pos hp]
    exact hp.symm
  · rw [if_neg hp]

lemma not_mem_fst_of_any_false (k : String) (m : List (String × Option Json))
    (h : m.any (fun p => p.1 = k) = false) : k ∉ m.map Prod.fst := by
  intro hk
  obtain ⟨p, hp, hpk⟩ := List.mem_map.mp hk
  have ht : m.any (fun p => p.1 = k) = true :=
    List.any_eq_true.mpr ⟨p, hp, by simp [hpk]⟩
  rw [h] at ht
  cases ht

lemma jsMapSet_nodup (m : List (String × Option Json)) (k : String) (v : Option Json)
    (h : (m.map Prod.fst).Nodup) : ((jsMapSet m k v).map Prod.fst).Nodup := by
  unfold jsMapSet
  by_cases ha : m.any (fun p => p.1 = k) = true
  · rw [if_pos ha, jsMapSet_fst_replace]
    exact h
  · rw [if_neg ha, List.map_append]
    rw [List.nodup_append]
    refine ⟨h, by simp, ?_⟩
    intro a ha2 hb
    simp only [List.map_cons, List.map_nil, List.mem_singleton] at hb
    subst hb
    exact not_mem_fst_of_any_false a m (Bool.eq_false_iff.mpr ha) ha2

lemma addRec_nodup (keyField : String) (m : List (String × Option Json)) (rec : Json)
    (h : (m.map Prod.fst).Nodup) : ((addRec keyField m rec).map Prod.fst).Nodup := by
  unfold addRec
  cases recKeyVal keyField rec with
  | none => exact h
  | some val =>
    show ((if jsTruthy val = true then jsMapSet m (jsString val) (rec.getField "id")
        else m).map Prod.fst).Nodup
    by_cases ht : jsTruthy val = true
    · rw [if_pos ht]
      exact jsMapSet_nodup m (jsString val) (rec.getField "id") h
    · rw [if_neg ht]
      exact h

lemma foldl_addRec_nodup (keyField : String) :
    ∀ (recs : List Json) (m : List (String × Option Json)),
      (m.map Prod.fst).Nodup →
      ((recs.foldl (addRec keyField) m).map Prod.fst).Nodup := by
  intro recs
  induction recs with
  | nil => intro m h; exact h
  | cons rec rest ih =>
    intro m h
    rw [List.foldl_cons]
    exact ih (addRec keyField m rec) (addRec_nodup keyField m rec h)

lemma foldl_addRec_get (keyField k : String) :
    ∀ (recs : List Json) (m : List (String × Option Json)),
      jsMapGet (recs.foldl (addRec keyField) m) k =
        match lastMatchId keyField k recs with
        | some v => some v
        | none => jsMapGet m k := by
  intro recs
  induction recs with
  | nil => intro m; rfl
  | cons rec rest ih =>
    intro m
    rw [List.foldl_cons, ih (addRec keyField m rec)]
    show _ = (match lastMatchId keyField k (rec :: rest) with
      | some v => some v
      | none => jsMapGet m k)
    cases hrest : lastMatchId keyField k rest with
    | some v => simp [lastMatchId, hrest]
    | none =>
      simp only [lastMatchId, hrest]
      unfold addRec matchEntry
      cases hkv : recKeyVal keyField rec with
      | none => rfl
      | some val =>
        show jsMapGet (if jsTruthy val = true then jsMapSet m (jsString val)
            (rec.getField "id") else m) k =
          (match (if jsTruthy val = true ∧ jsString val = k
              then some (rec.getField "id") else none) with
           | some v => some v
           | none => jsMapGet m k)
        by_cases ht : jsTruthy val = true
        · by_cases hstr : jsString val = k
          · rw [if_pos ht, if_pos ⟨ht, hstr⟩, hstr]
            exact jsMapGet_set_self m k (rec.getField "id")
          · rw [if_pos ht, if_neg (fun hand => hstr hand.2)]
            exact jsMapGet_set_ne m (jsString val) k (rec.getField "id")
              (fun hh => hstr hh.symm)
        · rw [if_neg ht, if_neg (fun hand => ht hand.1)]



lemma keysLoop_spec (table keyField : String) (resp : Nat → Json) :
    ∀ (groups : List (List String)) (i : Nat) (m : List (String × Option Json)),
      keysLoop table keyField resp groups i m =
        ((((List.range groups.length).map
              (fun j => recordsOrEmpty (resp (i + j)))).flatten).foldl
            (addRec keyField) m,
         groups.map (fun g => RepoCall.query table (orFilter g))) := by
  intro groups
  induction groups with
  | nil => intro i m; rfl
  | cons g gs ih =>
    intro i m
    show ((keysLoop table keyField resp gs (i + 1)
          ((recordsOrEmpty (resp i)).foldl (addRec keyField) m)).1,
        RepoCall.query table (orFilter g) ::
          (keysLoop table keyField resp gs (i + 1)
            ((recordsOrEmpty (resp i)).foldl (addRec keyField) m)).2) = _
    rw [ih (i + 1)]
    simp only [List.length_cons]
    rw [records_shift resp i gs.length, List.flatten_cons, List.foldl_append]
    rfl

/-- C7 (amended): `findRecordsByKeys` filters out falsy keys, partitions
the per-key equality conditions into groups of at most 20 and issues
exactly `ceil(truthyKeys / 20)` query calls — one OR-combined GET per
group — where `truthyKeys` is the number of keys left after the falsy
filter (the original claim's `ceil(keys.length / 20)` over-counts when
falsy keys are present); the returned mapping has pairwise distinct
(stringified) keys, and maps `k` to exactly the id of the last returned
record whose truthy key field stringifies to `k`. -/
theorem findRecordsByKeys_behaviour (table keyField : String) (keys : List Json)
    (resp : Nat → Json) :
    (findRecordsByKeys table keyField keys resp).2 =
        (chunk (keyConditions keyField keys) 20).map
          (fun g => RepoCall.query table (orFilter g))
    ∧ (findRecordsByKeys table keyField keys resp).2.length =
        ((keys.filter jsTruthy).length + 19) / 20
    ∧ (∀ g ∈ chunk (keyConditions keyField keys) 20, g.length ≤ 20)
    ∧ ((findRecordsByKeys table keyField keys resp).1.map Prod.fst).Nodup
    ∧ (∀ k, jsMapGet (findRecordsByKeys table keyField keys resp).1 k =
        lastMatchId keyField k
          (returnedRecords resp (chunk (keyConditions keyField keys) 20).length)) := by
  unfold findRecordsByKeys
  rw [keysLoop_spec table keyField resp (chunk (keyConditions keyField keys) 20) 0 []]
  refine ⟨rfl, ?_, chunk_mem_length_le _ 20, ?_, ?_⟩
  · show ((chunk (keyConditions keyField keys) 20).map
        (fun g => RepoCall.query table (orFilter g))).length = _
    rw [List.length_map, chunk_length]
    unfold keyConditions
    rw [List.length_map]
    congr 1
  · exact foldl_addRec_nodup keyField _ [] (by simp)
  · intro k
    show jsMapGet ((((List.range (chunk (keyConditions keyField keys) 20).length).map
        (fun j => recordsOrEmpty (resp (0 + j)))).flatten).foldl (addRec keyField) []) k = _
    rw [foldl_addRec_get keyField k]
    unfold returnedRecords
    simp only [Nat.zero_add]
    cases lastMatchId keyField k (((List.range
        (chunk (keyConditions keyField keys) 20).length).map
          (fun j => recordsOrEmpty (resp j))).flatten) with
    | some v => rfl
    | none => rfl




/-- Witness for C7 (amended): 21 truthy keys issue 2 query calls, the
first condition group is within the 20 bound, and the map lookup agrees
with `lastMatchId` on a concrete key. -/
theorem findRecordsByKeys_behaviour_witness :
    (findRecordsByKeys "leads" "placeId" goodKeys (fun _ => Json.null)).2.length = 2 ∧
    ((keyConditions "placeId" goodKeys).take 20).length ≤ 20 ∧
    jsMapGet (findRecordsByKeys "leads" "placeId" goodKeys (fun _ => Json.null)).1 "7" =
      lastMatchId "placeId" "7" (returnedRecords (fun _ => Json.null)
        (chunk (keyConditions "placeId" goodKeys) 20).length) := by
  have h := findRecordsByKeys_behaviour "leads" "placeId" goodKeys (fun _ => Json.null)
  refine ⟨?_, ?_, h.2.2.2.2 "7"⟩
  · rw [h.2.1]; rfl
  · refine h.2.2.1 ((keyConditions "placeId" goodKeys).take 20) ?_
    rw [chunk_cons 20 (by omega) _ (by decide)]
    exact List.mem_cons_self _ _


/-- Counterexample to C7 as stated: with 21 keys of which one is falsy,
`findRecordsByKeys` issues 1 query call, not
`ceil(keys.length / 20) = 2`. -/
theorem findRecordsByKeys_count_cex :
    badKeys.length = 21 ∧
    (findRecordsByKeys "leads" "placeId" badKeys (fun _ => Json.null)).2.length = 1 ∧
    (findRecordsByKeys "leads" "placeId" badKeys (fun _ => Json.null)).2.length ≠
      (badKeys.length + 19) / 20 := by
  refine ⟨rfl, rfl, by decide⟩


/-- Witness for C9: 11 records yield exactly 2 store calls and two polite
delays of the configured 120 ms. -/
theorem createMany_batches_witness :
    recs11 ≠ [] ∧
    (createMany ⟨10, 120⟩ "leads" recs11 (fun _ => Json.null)).calls.length = 2 ∧
    (createMany ⟨10, 120⟩ "leads" recs11 (fun _ => Json.null)).delays = [120, 120] := by
  have hne : recs11 ≠ [] := by
    intro hnil
    exact absurd (congrArg List.length hnil) (by decide)
  have h := createMany_batches "leads" 120 recs11 (fun _ => Json.null) hne
  refine ⟨hne, ?_, ?_⟩
  · rw [h.2.1]; rfl
  · rw [h.2.2.2.2.2]; rfl

/-- C10: on an empty record list both `createMany` and `updateMany`
perform zero store calls and zero polite delays and resolve with an empty
array. -/
theorem batchMutation_empty (limits : AirtableLimits) (table : String)
    (resp : Nat → Json) :
    createMany limits table [] resp = ⟨[], [], []⟩ ∧
    updateMany limits table [] resp = ⟨[], [], []⟩ := by
  unfold createMany updateMany
  rw [@chunk_nil Json limits.batchSize]
  exact ⟨rfl, rfl⟩



/-- C8: `upsertByKey` throws `Upsert missing <keyField>` with zero store
calls when the key field is absent or falsy; when the lookup finds an
existing record it issues a PATCH addressed at that record's id and
returns the (echoed) existing identifier; when the lookup finds nothing it
issues a POST of one record and returns the id of the first element of the
store's batch-creation reply. -/
theorem upsertByKey_behaviour (strict : Bool) (table keyField : String)
    (fields : List (String × Json)) (lookupResponse mutResponse : Json) :
    (jsTruthyOpt (lookupField fields keyField) = false →
      upsertByKey strict table keyField fields lookupResponse mutResponse =
        (.thrown ("Upsert missing " ++ keyField), []))
  ∧ (∀ keyVal existing idv,
      lookupField fields keyField = some keyVal →
      jsTruthy keyVal = true →
      recordsOrEmpty lookupResponse = [existing] →
      existing.getField "id" = some idv →
      mutResponse.getField "id" = some idv →
      upsertByKey strict table keyField fields lookupResponse mutResponse =
        (.returned (some idv),
         [.query table (fieldFilter keyField keyVal),
          .patchOne table (jsString idv) fields]))
  ∧ (∀ keyVal r0 rest newId,
      lookupField fields keyField = some keyVal →
      jsTruthy keyVal = true →
      recordsOrEmpty lookupResponse = [] →
      mutResponse.getField "records" = some (Json.arr (r0 :: rest)) →
      r0.getField "id" = some newId →
      upsertByKey strict table keyField fields lookupResponse mutResponse =
        (.returned (some newId),
         [.query table (fieldFilter keyField keyVal),
          .postRecords table [Json.obj [("fields", Json.obj fields)]]])) := by
  refine ⟨?_, ?_, ?_⟩
  · intro hfalsy
    cases hl : lookupField fields keyField with
    | none => simp only [upsertByKey, hl]
    | some keyVal =>
      rw [hl] at hfalsy
      simp only [jsTruthyOpt] at hfalsy
      simp only [upsertByKey, hl, hfalsy, Bool.false_eq_true, if_false]
  · intro keyVal existing idv hl ht hrec hid hmut
    simp only [upsertByKey, hl, ht, if_true, findOneByField, findAllByField, hrec,
      List.length_singleton, lt_self_iff_false, false_and, if_false, List.head?_cons,
      recIdString, hid, hmut]
  · intro keyVal r0 rest newId hl ht hrec hrecords hid
    simp only [upsertByKey, hl, ht, if_true, findOneByField, findAllByField, hrec,
      List.length_nil, List.head?_nil, postCreatedId, hrecords, hid]
    norm_num










/-- Witness for C8: the three branches at concrete inputs — missing key
throws with no calls; an existing `rec1` is PATCHed and `rec1` returned; a
miss POSTs and returns `recNew`. -/
theorem upsertByKey_behaviour_witness :
    upsertByKey true "leads" "placeId" fieldsNoKey lookupHit patchReply =
        (.thrown "Upsert missing placeId", [])
    ∧ upsertByKey true "leads" "placeId" fieldsWithKey lookupHit patchReply =
        (.returned (some (Json.str "rec1")),
         [.query "leads" (fieldFilter "placeId" (Json.str "p1")),
          .patchOne "leads" "rec1" fieldsWithKey])
    ∧ upsertByKey true "leads" "placeId" fieldsWithKey lookupMiss postReply =
        (.returned (some (Json.str "recNew")),
         [.query "leads" (fieldFilter "placeId" (Json.str "p1")),
          .postRecords "leads" [Json.obj [("fields", Json.obj fieldsWithKey)]]]) := by
  refine ⟨?_, ?_, ?_⟩
  · exact (upsertByKey_behaviour true "leads" "placeId" fieldsNoKey
      lookupHit patchReply).1 rfl
  · have h := (upsertByKey_behaviour true "leads" "placeId" fieldsWithKey
      lookupHit patchReply).2.1 (Json.str "p1") existingRecord (Json.str "rec1")
      rfl rfl rfl rfl rfl
    rw [h]
    rfl
  · have h := (upsertByKey_behaviour true "leads" "placeId" fieldsWithKey
      lookupMiss postReply).2.2 (Json.str "p1") (Json.obj [("id", Json.str "recNew")])
      [] (Json.str "recNew") rfl rfl rfl rfl rfl
    rw [h]

end LeadsImport
